import Mathlib

/-!
Verification of the uplink-vscode-extension core against its specification.

The definitions below are shallow embeddings of the TypeScript sources:
  * `src/serverDownload.ts`   (`detectRemoteSystem`, `downloadServerOnRemote`)
  * `src/serverSetup.ts`      (`parseServerInstallOutput`, `verifyRemoteArchiveSize`,
                               the result classification in `installCodeServer`)
  * `src/nativeSSHConnection.ts` (`connect`, `exec`, `addTunnel`, `closeTunnel`)
  * the identity-merging loop of `gatherIdentityFiles`.

Remote command execution and the native SSH transport are oracles: their
outputs (command stdout, assigned local ports, session ids) are explicit
parameters, and the transport calls a function performs are returned as an
explicit effect list.
-/

namespace Uplink

/-! ## serverDownload.ts : detectRemoteSystem -/

inductive RemoteArch
  | x64
  | arm64
deriving DecidableEq, Repr

structure RemoteSystemInfo where
  arch : RemoteArch
  libc : String
  glibcVersion : Option String := none
deriving DecidableEq, Repr

/-- Whitespace as stripped by JavaScript `String.prototype.trim` (ASCII part,
which is all that `uname -m` output can contain). -/
def isJsSpace (c : Char) : Bool :=
  c == ' ' || c == '\n' || c == '\t' || c == '\r'

/-- Model of JavaScript `s.trim()`. -/
def jsTrim (s : String) : String :=
  ⟨(((s.toList.dropWhile isJsSpace).reverse.dropWhile isJsSpace).reverse)⟩

/-- Embedding of `detectRemoteSystem` (src/serverDownload.ts, lines 14-31).
The argument is the stdout of the remote `uname -m`; the function trims it and
maps it onto a supported architecture, failing on anything else. -/
def detectRemoteSystem (unameMStdout : String) : Except String RemoteSystemInfo :=
  let archOutput := jsTrim unameMStdout
  if archOutput = "x86_64" ∨ archOutput = "amd64" then
    .ok { arch := .x64, libc := "glibc" }
  else if archOutput = "aarch64" ∨ archOutput = "arm64" then
    .ok { arch := .arm64, libc := "glibc" }
  else
    .error ("Unsupported architecture: " ++ archOutput)

/-! ## serverSetup.ts : verifyRemoteArchiveSize -/

inductive VerifyOutcome
  | verified (uploads : Nat)
  | installError (message : String) (uploads : Nat)
deriving DecidableEq, Repr

/-- The rendering of `remoteSize` in the integrity error, with `missing` for
an absent remote file. -/
def remoteSizeText (r : Option Nat) : String :=
  match r with
  | some n => toString n
  | none => "missing"

/-- Embedding of `verifyRemoteArchiveSize` (src/serverSetup.ts, lines 190-216).
`firstRemoteSize` and `retryRemoteSize` are the values `getRemoteFileSize`
reports on the initial check and after the (single) re-upload; `none` models
the `undefined` returned when the remote file is absent or `wc -c` output is
not numeric.  The `uploads` count records how many re-uploads were performed. -/
def verifyRemoteArchiveSize (localArchiveSize : Nat)
    (firstRemoteSize retryRemoteSize : Option Nat) : VerifyOutcome :=
  if firstRemoteSize = some localArchiveSize then
    .verified 0
  else if retryRemoteSize = some localArchiveSize then
    .verified 1
  else
    .installError
      ("Sidecar archive upload incomplete (local " ++ toString localArchiveSize ++
        " bytes, remote " ++ remoteSizeText retryRemoteSize ++ ").") 1

/-! ## serverSetup.ts : parseServerInstallOutput and result classification -/

/-- JavaScript `str.indexOf(needle, i)` scanning: returns the position of the
first occurrence of `needle` in `s`, where the head of `s` sits at position
`i`; `none` models the `-1` result. -/
def indexOfAux (needle : List Char) : List Char → Nat → Option Nat
  | [], i => if needle = [] then some i else none
  | c :: rest, i =>
    if needle.isPrefixOf (c :: rest) then some i else indexOfAux needle rest (i + 1)

/-- The needle occurs in `s` at position `k`. -/
def occursAt (s needle : List Char) (k : Nat) : Prop :=
  needle.isPrefixOf (s.drop k)

instance (s needle : List Char) (k : Nat) : Decidable (occursAt s needle k) := by
  unfold occursAt
  infer_instance

/-- JavaScript `str.split(/\r?\n/)`: the second argument is the accumulator for
the current line, kept reversed. -/
def splitLinesAux : List Char → List Char → List (List Char)
  | [], acc => [acc.reverse]
  | '\r' :: '\n' :: rest, acc => acc.reverse :: splitLinesAux rest []
  | '\n' :: rest, acc => acc.reverse :: splitLinesAux rest []
  | c :: rest, acc => splitLinesAux rest (c :: acc)

/-- JavaScript splitting of a line on the separator `==`: splits at every
non-overlapping occurrence, scanning left to right. -/
def splitEqEq : List Char → List Char → List (List Char)
  | [], acc => [acc.reverse]
  | '=' :: '=' :: rest, acc => acc.reverse :: splitEqEq rest []
  | c :: rest, acc => splitEqEq rest (c :: acc)

/-- The destructuring of a split line into key and value: the key is the
first piece, the
value the second when present (`none` models `undefined`). -/
def lineKeyValue (line : List Char) : String × Option String :=
  let parts := splitEqEq line []
  (⟨parts.headD []⟩, parts[1]?.map fun l => (⟨l⟩ : String))

/-- Assignment of a key on a JavaScript object: overwrite in place when
the key exists, append otherwise. -/
def mapSet (m : List (String × Option String)) (k : String) (v : Option String) :
    List (String × Option String) :=
  if m.any (fun p => p.1 == k) then
    m.map (fun p => if p.1 == k then (k, v) else p)
  else
    m ++ [(k, v)]

/-- The loop of `parseServerInstallOutput` that builds `resultMap` from the
lines between the markers. -/
def buildResultMap (lines : List (List Char)) : List (String × Option String) :=
  lines.foldl (fun m line => mapSet m (lineKeyValue line).1 (lineKeyValue line).2) []

/-- Embedding of `parseServerInstallOutput` (src/serverSetup.ts, lines 135-159). -/
def parseServerInstallOutput (str scriptId : String) :
    Option (List (String × Option String)) :=
  let s := str.toList
  let startResultStr := (scriptId ++ ": start").toList
  let endResultStr := (scriptId ++ ": end").toList
  match indexOfAux startResultStr s 0 with
  | none => none
  | some startResultIdx =>
    let searchFrom := startResultIdx + startResultStr.length
    match indexOfAux endResultStr (s.drop searchFrom) searchFrom with
    | none => none
    | some endResultIdx =>
      some (buildResultMap (splitLinesAux ((s.take endResultIdx).drop searchFrom) []))

/-- Follows the spec's words, for comparison with `parseServerInstallOutput`:
"the parser must locate the *last* marker pair".  It picks the last occurrence
of the start marker that is still followed by an end marker, and the first end
marker after it. -/
def parseServerInstallOutputLastPair (str scriptId : String) :
    Option (List (String × Option String)) :=
  let s := str.toList
  let startResultStr := (scriptId ++ ": start").toList
  let endResultStr := (scriptId ++ ": end").toList
  let starts := (List.range (s.length + 1)).filter fun i =>
    startResultStr.isPrefixOf (s.drop i) &&
      (indexOfAux endResultStr (s.drop (i + startResultStr.length))
        (i + startResultStr.length)).isSome
  match starts.getLast? with
  | none => none
  | some startResultIdx =>
    let searchFrom := startResultIdx + startResultStr.length
    match indexOfAux endResultStr (s.drop searchFrom) searchFrom with
    | none => none
    | some endResultIdx =>
      some (buildResultMap (splitLinesAux ((s.take endResultIdx).drop searchFrom) []))

/-- Property access `resultMap[k]` on the parsed map: `none` models
`undefined`, both for an absent key and for a key stored with no value. -/
def mapGet (m : List (String × Option String)) (k : String) : Option String :=
  match m.find? (fun p => p.1 == k) with
  | some p => p.2
  | none => none

/-- Value of a digit run, most significant first. -/
def natOfDigits (ds : List Char) : Nat :=
  ds.foldl (fun n c => n * 10 + (c.toNat - 48)) 0

def parseDigitsLeading (cs : List Char) : Option Nat :=
  let ds := cs.takeWhile Char.isDigit
  if ds = [] then none else some (natOfDigits ds)

/-- JavaScript `parseInt(v, 10)`: skips leading whitespace, accepts an optional
sign, reads the leading digit run; `none` models `NaN` (in particular for an
`undefined` argument). -/
def jsParseInt10 (v : Option String) : Option Int :=
  match v with
  | none => none
  | some str =>
    match str.toList.dropWhile isJsSpace with
    | '-' :: rest => (parseDigitsLeading rest).map fun n => -(Int.ofNat n)
    | '+' :: rest => (parseDigitsLeading rest).map Int.ofNat
    | cs => (parseDigitsLeading cs).map Int.ofNat

/-- How `installCodeServer` (src/serverSetup.ts, lines 106-118) classifies the
install-script output once the command has run. -/
inductive InstallOutcome
  | parseFailure
  | nonZeroExit
  | jsTypeError
  | success (listeningOn : Nat ⊕ String)
deriving DecidableEq, Repr

/-- Embedding of the result handling of `installCodeServer`: a `none` parse
raises the distinct `Failed parsing install script output` error
(`parseFailure`); otherwise a `parseInt` of `exitCode` different from `0`
(including `NaN`) raises the exit-status error (`nonZeroExit`); otherwise
`listeningOn` is a port number when it matches `/^\d+$/` and an opaque string
otherwise (`jsTypeError` records the `TypeError` of calling `.match` on an
`undefined` `listeningOn`). -/
def classifyInstallOutput (stdout scriptId : String) : InstallOutcome :=
  match parseServerInstallOutput stdout scriptId with
  | none => .parseFailure
  | some resultMap =>
    match jsParseInt10 (mapGet resultMap "exitCode") with
    | some 0 =>
      match mapGet resultMap "listeningOn" with
      | none => .jsTypeError
      | some lo =>
        if !lo.toList.isEmpty && lo.toList.all Char.isDigit then
          .success (Sum.inl (natOfDigits lo.toList))
        else
          .success (Sum.inr lo)
    | _ => .nonZeroExit

/-! ## nativeSSHConnection.ts : session state, exec and tunnels -/

/-- A call made to the native SSH transport (src/native/ssh.ts). -/
inductive TransportCall
  | connectCall
  | execCall (cmd : String)
  | forwardPortCall (localPort : Nat) (remoteHost : String) (remotePort : Nat)
  | disconnectCall
  | uploadFileCall (localPath remotePath : String)
deriving DecidableEq, Repr

def isForwardPortCall : TransportCall → Bool
  | .forwardPortCall _ _ _ => true
  | _ => false

/-- The mutable state of a `NativeSSHConnection`: the session id (`none`
models the initial `null`) and the tunnel bookkeeping map in insertion
order. -/
structure ConnState where
  sessionId : Option Nat
  tunnels : List (String × Nat)
deriving DecidableEq, Repr

/-- The implicit `connect` (src/nativeSSHConnection.ts, lines 34-51) on the
success path: a no-op when a session id exists, otherwise one
`NativeSSH.connect` handshake whose result (`connectOracle`) becomes the
session id. -/
def connectStep (st : ConnState) (connectOracle : Nat) : ConnState × List TransportCall :=
  match st.sessionId with
  | some _ => (st, [])
  | none => ({ st with sessionId := some connectOracle }, [.connectCall])

/-- JavaScript `v || d` for an optional string (the empty string is falsy). -/
def jsOrString (v : Option String) (d : String) : String :=
  match v with
  | some s => if s = "" then d else s
  | none => d

/-- JavaScript `v || d` for an optional number (`0` is falsy). -/
def jsOrNat (v : Option Nat) (d : Nat) : Nat :=
  match v with
  | some n => if n = 0 then d else n
  | none => d

/-- Template-literal rendering of a possibly-undefined string. -/
def jsTemplateString (v : Option String) : String :=
  match v with
  | some s => s
  | none => "undefined"

/-- Template-literal rendering of a possibly-undefined number. -/
def jsTemplateNat (v : Option Nat) : String :=
  match v with
  | some n => toString n
  | none => "undefined"

/-- The `SSHTunnelConfig` record (src/nativeSSHConnection.ts, lines 13-20);
`none` models
an absent field. -/
structure SSHTunnelConfig where
  name : Option String := none
  localPort : Option Nat := none
  remoteAddr : Option String := none
  remotePort : Option Nat := none
  remoteSocketPath : Option String := none
  socks : Bool := false
deriving DecidableEq, Repr

/-- The tunnel name `addTunnel` uses:
`config.name || config.remoteAddr + ":" + config.remotePort`. -/
def tunnelName (config : SSHTunnelConfig) : String :=
  jsOrString config.name
    (jsTemplateString config.remoteAddr ++ ":" ++ jsTemplateNat config.remotePort)

/-- Lookup of a tunnel name on the insertion-ordered map. -/
def tunnelLookup (tunnels : List (String × Nat)) (name : String) : Option Nat :=
  match tunnels.find? (fun p => p.1 == name) with
  | some p => some p.2
  | none => none

/-- Embedding of `NativeSSHConnection.addTunnel` (lines 64-93).
`connectOracle` is the session id a lazy handshake would produce and
`forwardOracle` the local port `NativeSSH.forwardPort` would assign.  Returns
the `localPort` of the result object, the new state and the transport calls
made, or the thrown error message. -/
def addTunnel (st : ConnState) (config : SSHTunnelConfig)
    (connectOracle forwardOracle : Nat) :
    Except String (Nat × ConnState × List TransportCall) :=
  let c := connectStep st connectOracle
  let name := tunnelName config
  match tunnelLookup c.1.tunnels name with
  | some existing => .ok (existing, c.1, c.2)
  | none =>
    if config.socks then
      .error "SOCKS tunnels not supported in native SSH connection"
    else
      .ok (forwardOracle,
        { c.1 with tunnels := c.1.tunnels ++ [(name, forwardOracle)] },
        c.2 ++ [.forwardPortCall (jsOrNat config.localPort 0)
          (jsOrString config.remoteAddr "127.0.0.1") (jsOrNat config.remotePort 0)])

/-- Embedding of `NativeSSHConnection.closeTunnel` (lines 95-102): `if (name)`
is JavaScript truthiness, so an absent *or empty* name clears the whole map;
no transport call is ever made. -/
def closeTunnel (st : ConnState) (name : Option String) : ConnState × List TransportCall :=
  match name with
  | some n =>
    if n = "" then ({ st with tunnels := [] }, [])
    else ({ st with tunnels := st.tunnels.eraseP (fun p => p.1 == n) }, [])
  | none => ({ st with tunnels := [] }, [])

/-- Embedding of `NativeSSHConnection.exec` (lines 53-62): after the implicit
connect, the transport output (`execOracle`) becomes `stdout` and `stderr` is
always the empty string. -/
def connExec (st : ConnState) (cmd : String) (connectOracle : Nat) (execOracle : String) :
    ConnState × List TransportCall × String × String :=
  let c := connectStep st connectOracle
  (c.1, c.2 ++ [.execCall cmd], execOracle, "")

/-- JavaScript `s.includes(sub)`. -/
def jsIncludes (s sub : String) : Bool :=
  (indexOfAux sub.toList s.toList 0).isSome

/-- The completion check at the end of `downloadServerOnRemote`
(src/serverDownload.ts, lines 107-127): the thrown message is built from
`result.stderr` with the fallback `Unknown error`. -/
def downloadCompletionCheck (stdout stderr : String) : Except String Unit :=
  if jsIncludes stdout "DOWNLOAD_COMPLETE" then .ok ()
  else .error ("Download failed: " ++ (if stderr = "" then "Unknown error" else stderr))

/-! ## nativeSSHConnection.ts : the connect path under two concurrent callers -/

/-- Where one `connect()` invocation stands: not yet run, suspended on
`await NativeSSH.connect(...)`, or returned (recording the session id the
caller observed when it returned). -/
inductive CallerPhase
  | notStarted
  | awaitingHandshake
  | returned (observed : Nat)
deriving DecidableEq, Repr

/-- Two `connect()` invocations racing on one `NativeSSHConnection`:
`handshakes` counts the `NativeSSH.connect` calls issued. -/
structure ConnectRace where
  sessionId : Option Nat
  handshakes : Nat
  caller1 : CallerPhase
  caller2 : CallerPhase
deriving DecidableEq, Repr

/-- The atomic segments of `connect` (src/nativeSSHConnection.ts, lines
34-51), as run by the JavaScript event loop (code between `await`s runs
atomically).  Starting with a non-null `sessionId` returns it at once;
starting with a null one issues the handshake and suspends; resuming stores
this caller's handshake result `h` as the session id and returns it. -/
def callerStep (h : Nat) (sessionId : Option Nat) (handshakes : Nat) (ph : CallerPhase) :
    Option Nat × Nat × CallerPhase :=
  match ph with
  | .notStarted =>
    match sessionId with
    | some s => (some s, handshakes, .returned s)
    | none => (none, handshakes + 1, .awaitingHandshake)
  | .awaitingHandshake => (some h, handshakes, .returned h)
  | .returned o => (sessionId, handshakes, .returned o)

/-- One scheduler step: run the next atomic segment of caller 2 (`who = true`)
or caller 1 (`who = false`); `h1`/`h2` are the session ids their handshakes
would produce. -/
def connectRaceStep (h1 h2 : Nat) (st : ConnectRace) (who : Bool) : ConnectRace :=
  if who then
    let r := callerStep h2 st.sessionId st.handshakes st.caller2
    { sessionId := r.1, handshakes := r.2.1, caller1 := st.caller1, caller2 := r.2.2 }
  else
    let r := callerStep h1 st.sessionId st.handshakes st.caller1
    { sessionId := r.1, handshakes := r.2.1, caller1 := r.2.2, caller2 := st.caller2 }

/-- Run a schedule of caller segments against an initially disconnected
connection. -/
def connectRaceRun (h1 h2 : Nat) (sched : List Bool) : ConnectRace :=
  sched.foldl (connectRaceStep h1 h2) ⟨none, 0, .notStarted, .notStarted⟩

/-! ## gatherIdentityFiles : the agent/file identity merge -/

/-- An `SSHKey` as handled by `gatherIdentityFiles`: `keyType` models
`parsedKey.type` and `fingerprint` the SHA-256 hash of the public key blob;
the boolean flags model the JavaScript fields, with `false` standing for
`undefined`. -/
structure SSHKey where
  filename : String
  keyType : String
  fingerprint : String
  isCertificate : Bool
  isPrivate : Bool
  agentSupport : Bool
deriving DecidableEq, Repr

/-- A parseable file identity as pushed onto `fileKeys`. -/
def mkFileKey (path keyType fingerprint : String) : SSHKey :=
  { filename := path, keyType := keyType, fingerprint := fingerprint,
    isCertificate := false, isPrivate := true, agentSupport := false }

/-- An agent identity as built from the agent's parsed keys (`isCertificate`
and `isPrivate` are left `undefined` in the source). -/
def mkAgentKey (comment keyType fingerprint : String) : SSHKey :=
  { filename := comment, keyType := keyType, fingerprint := fingerprint,
    isCertificate := false, isPrivate := false, agentSupport := true }

/-- The match test of the merge loop: certificates are skipped, otherwise the
(type, fingerprint) pair must agree. -/
def keyMatches (agentKey k : SSHKey) : Bool :=
  !k.isCertificate && (agentKey.keyType == k.keyType) &&
    (agentKey.fingerprint == k.fingerprint)

/-- The (type, fingerprint) pair identifying a key across sources. -/
def pairKey (k : SSHKey) : String × String :=
  (k.keyType, k.fingerprint)

/-- The findIndex search over the file keys followed by reading and splicing
out the found entry:
the first matching file key together with the pool without it. -/
def findMatch (agentKey : SSHKey) : List SSHKey → Option (SSHKey × List SSHKey)
  | [] => none
  | k :: rest =>
    if keyMatches agentKey k then some (k, rest)
    else
      match findMatch agentKey rest with
      | some (f, rest2) => some (f, k :: rest2)
      | none => none

/-- The merge loop of `gatherIdentityFiles`: given the agent keys and the file
key pool, returns (`preferredIdentityKeys` as pushed by the loop, the
unmatched `agentKeys` kept, the remaining `fileKeys`), in loop order. -/
def mergeLoop (identitiesOnly : Bool) : List SSHKey → List SSHKey →
    List SSHKey × List SSHKey × List SSHKey
  | [], fileKeys => ([], [], fileKeys)
  | agentKey :: rest, fileKeys =>
    match findMatch agentKey fileKeys with
    | some (f, remaining) =>
      let r := mergeLoop identitiesOnly rest remaining
      ({ f with agentSupport := true } :: r.1, r.2.1, r.2.2)
    | none =>
      let r := mergeLoop identitiesOnly rest fileKeys
      (r.1, if identitiesOnly then r.2.1 else agentKey :: r.2.1, r.2.2)

/-- The final assembly of `gatherIdentityFiles`: preferred keys, then
unmatched agent keys, then remaining file keys, certificates dropped. -/
def gatherMerge (fileKeys sshAgentKeys : List SSHKey) (identitiesOnly : Bool) :
    List SSHKey :=
  ((mergeLoop identitiesOnly sshAgentKeys fileKeys).1 ++
      (mergeLoop identitiesOnly sshAgentKeys fileKeys).2.1 ++
      (mergeLoop identitiesOnly sshAgentKeys fileKeys).2.2).filter
    (fun k => !k.isCertificate)

end Uplink

namespace Uplink

/-! ## Theorems -/

/-- Dropping `a` then `d` elements is dropping `a + d` elements, stated for
occurrence positions. -/
theorem occursAt_drop (s needle : List Char) (a d : Nat) :
    occursAt (s.drop a) needle d ↔ occursAt s needle (a + d) := by
  unfold occursAt
  rw [List.drop_drop, Nat.add_comm]

/-- A successful `indexOfAux` search returns the position of the first
occurrence at or after the base index. -/
theorem indexOfAux_some (needle : List Char) :
    ∀ (s : List Char) (i k : Nat), indexOfAux needle s i = some k →
      i ≤ k ∧ occursAt s needle (k - i) ∧ ∀ d, d < k - i → ¬ occursAt s needle d := by
  intro s
  induction s with
  | nil =>
    intro i k h
    by_cases hn : needle = []
    · subst hn
      have hik : i = k := by simpa [indexOfAux] using h
      subst hik
      refine ⟨le_refl _, ?_, ?_⟩
      · simp [occursAt, List.isPrefixOf]
      · intro d hd
        omega
    · simp [indexOfAux, hn] at h
  | cons c rest ih =>
    intro i k h
    unfold indexOfAux at h
    by_cases hp : needle.isPrefixOf (c :: rest)
    · rw [if_pos hp] at h
      cases h
      refine ⟨le_refl _, ?_, ?_⟩
      · simpa [occursAt] using hp
      · intro d hd
        omega
    · rw [if_neg hp] at h
      obtain ⟨h1, h2, h3⟩ := ih (i + 1) k h
      refine ⟨by omega, ?_, ?_⟩
      · have hk : k - i = (k - (i + 1)) + 1 := by omega
        rw [hk]
        simpa [occursAt] using h2
      · intro d hd
        match d with
        | 0 => simpa [occursAt] using hp
        | Nat.succ e =>
          have he : e < k - (i + 1) := by omega
          simpa [occursAt] using h3 e he

/-- A failed `indexOfAux` search means the needle occurs nowhere in the list. -/
theorem indexOfAux_none (needle : List Char) :
    ∀ (s : List Char) (i : Nat),
      indexOfAux needle s i = none ↔ ∀ d, ¬ occursAt s needle d := by
  intro s
  induction s with
  | nil =>
    intro i
    by_cases hn : needle = []
    · subst hn
      constructor
      · intro h
        simp [indexOfAux] at h
      · intro h
        exact absurd (show occursAt [] [] 0 by simp [occursAt, List.isPrefixOf]) (h 0)
    · constructor
      · intro _ d
        simp only [occursAt, List.drop_nil]
        cases needle with
        | nil => exact absurd rfl hn
        | cons a l => simp [List.isPrefixOf]
      · intro _
        simp [indexOfAux, hn]
  | cons c rest ih =>
    intro i
    by_cases hp : needle.isPrefixOf (c :: rest)
    · constructor
      · intro h
        unfold indexOfAux at h
        rw [if_pos hp] at h
        cases h
      · intro h
        exact absurd (show occursAt (c :: rest) needle 0 by simpa [occursAt] using hp) (h 0)
    · unfold indexOfAux
      rw [if_neg hp, ih (i + 1)]
      constructor
      · intro h d
        match d with
        | 0 => simpa [occursAt] using hp
        | Nat.succ e => simpa [occursAt] using h e
      · intro h d
        simpa [occursAt] using h (d + 1)

/-- C1 (counterexample): on an output stream containing two complete marker
pairs, `parseServerInstallOutput` extracts the block of the first pair
(`exitCode` 0), not of the last pair (`exitCode` 1) as the spec-worded
last-pair parser does. -/
theorem parseServerInstallOutput_not_last_pair :
    parseServerInstallOutput
        "abc: start\nexitCode==0==\nabc: end\nnoise\nabc: start\nexitCode==1==\nabc: end"
        "abc" = some [("", none), ("exitCode", some "0")] ∧
    parseServerInstallOutputLastPair
        "abc: start\nexitCode==0==\nabc: end\nnoise\nabc: start\nexitCode==1==\nabc: end"
        "abc" = some [("", none), ("exitCode", some "1")] ∧
    parseServerInstallOutput
        "abc: start\nexitCode==0==\nabc: end\nnoise\nabc: start\nexitCode==1==\nabc: end"
        "abc" ≠
      parseServerInstallOutputLastPair
        "abc: start\nexitCode==0==\nabc: end\nnoise\nabc: start\nexitCode==1==\nabc: end"
        "abc" := by
  refine ⟨by decide, by decide, ?_⟩
  intro h
  have h1 : parseServerInstallOutput
      "abc: start\nexitCode==0==\nabc: end\nnoise\nabc: start\nexitCode==1==\nabc: end"
      "abc" = some [("", none), ("exitCode", some "0")] := by decide
  have h2 : parseServerInstallOutputLastPair
      "abc: start\nexitCode==0==\nabc: end\nnoise\nabc: start\nexitCode==1==\nabc: end"
      "abc" = some [("", none), ("exitCode", some "1")] := by decide
  rw [h1, h2] at h
  simp at h

/-- C1 (amended): whenever `parseServerInstallOutput` succeeds, the block it
extracted is delimited by the *first* occurrence of the start marker and the
first occurrence of the end marker after it; all other text, including any
later marker pairs, is ignored. -/
theorem parseServerInstallOutput_first_pair (str scriptId : String)
    (m : List (String × Option String))
    (h : parseServerInstallOutput str scriptId = some m) :
    ∃ si ei,
      occursAt str.toList ((scriptId ++ ": start").toList) si ∧
      (∀ j, j < si → ¬ occursAt str.toList ((scriptId ++ ": start").toList) j) ∧
      si + (scriptId ++ ": start").toList.length ≤ ei ∧
      occursAt str.toList ((scriptId ++ ": end").toList) ei ∧
      (∀ j, si + (scriptId ++ ": start").toList.length ≤ j → j < ei →
        ¬ occursAt str.toList ((scriptId ++ ": end").toList) j) ∧
      m = buildResultMap (splitLinesAux
        ((str.toList.take ei).drop (si + (scriptId ++ ": start").toList.length)) []) := by
  cases h1 : indexOfAux ((scriptId ++ ": start").toList) str.toList 0 with
  | none =>
    exfalso
    simp only [parseServerInstallOutput, h1] at h
    exact Option.noConfusion h
  | some si =>
    cases h2 : indexOfAux ((scriptId ++ ": end").toList)
        (str.toList.drop (si + (scriptId ++ ": start").toList.length))
        (si + (scriptId ++ ": start").toList.length) with
    | none =>
      exfalso
      simp only [parseServerInstallOutput, h1, h2] at h
      exact Option.noConfusion h
    | some ei =>
      have hm : m = buildResultMap (splitLinesAux
          ((str.toList.take ei).drop (si + (scriptId ++ ": start").toList.length)) []) := by
        have := h
        simp only [parseServerInstallOutput, h1, h2, Option.some.injEq] at this
        exact this.symm
      obtain ⟨-, hs2, hs3⟩ := indexOfAux_some _ _ _ _ h1
      obtain ⟨he1, he2, he3⟩ := indexOfAux_some _ _ _ _ h2
      rw [Nat.sub_zero] at hs2
      refine ⟨si, ei, hs2, ?_, he1, ?_, ?_, hm⟩
      · intro j hj
        exact hs3 j (by omega)
      · rw [occursAt_drop] at he2
        have hei : si + (scriptId ++ ": start").toList.length +
            (ei - (si + (scriptId ++ ": start").toList.length)) = ei := by omega
        rwa [hei] at he2
      · intro j hj1 hj2
        have hd := he3 (j - (si + (scriptId ++ ": start").toList.length)) (by omega)
        rw [occursAt_drop] at hd
        have hjj : si + (scriptId ++ ": start").toList.length +
            (j - (si + (scriptId ++ ": start").toList.length)) = j := by omega
        rwa [hjj] at hd

/-- Witness for the amended C1: on the spec's example stream, the extracted
block is the one between the (unique, hence first) marker pair. -/
theorem parseServerInstallOutput_first_pair_witness :
    ∃ si ei,
      occursAt ("noise\nabc123: start\nexitCode==0==\nlisteningOn==37500==\nabc123: end\ntail".toList)
        (("abc123" ++ ": start").toList) si ∧
      (∀ j, j < si →
        ¬ occursAt ("noise\nabc123: start\nexitCode==0==\nlisteningOn==37500==\nabc123: end\ntail".toList)
          (("abc123" ++ ": start").toList) j) ∧
      si + ("abc123" ++ ": start").toList.length ≤ ei ∧
      occursAt ("noise\nabc123: start\nexitCode==0==\nlisteningOn==37500==\nabc123: end\ntail".toList)
        (("abc123" ++ ": end").toList) ei ∧
      (∀ j, si + ("abc123" ++ ": start").toList.length ≤ j → j < ei →
        ¬ occursAt ("noise\nabc123: start\nexitCode==0==\nlisteningOn==37500==\nabc123: end\ntail".toList)
          (("abc123" ++ ": end").toList) j) ∧
      [("", none), ("exitCode", some "0"), ("listeningOn", some "37500")] =
        buildResultMap (splitLinesAux
          (("noise\nabc123: start\nexitCode==0==\nlisteningOn==37500==\nabc123: end\ntail".toList.take ei).drop
            (si + ("abc123" ++ ": start").toList.length)) []) :=
  parseServerInstallOutput_first_pair
    "noise\nabc123: start\nexitCode==0==\nlisteningOn==37500==\nabc123: end\ntail" "abc123"
    [("", none), ("exitCode", some "0"), ("listeningOn", some "37500")] (by decide)

/-- C6 (counterexample): with both markers present but a malformed line
(`garbage line`, no `==`) between them, parsing does not fail: it returns a
map (the malformed line merely yields a key with no value) and the install
outcome is not the parse-failure condition. -/
theorem parseServerInstallOutput_tolerates_malformed_lines :
    parseServerInstallOutput
        "abc: start\ngarbage line\nexitCode==0==\nlisteningOn==8080==\nabc: end" "abc" =
      some [("", none), ("garbage line", none), ("exitCode", some "0"),
        ("listeningOn", some "8080")] ∧
    classifyInstallOutput
        "abc: start\ngarbage line\nexitCode==0==\nlisteningOn==8080==\nabc: end" "abc" =
      .success (Sum.inl 8080) := by
  exact ⟨by decide, by decide⟩

/-- C6 (amended): `parseServerInstallOutput` returns `undefined` (and
`installCodeServer` raises the distinct `Failed parsing install script output`
error) exactly when the start marker never occurs, or the end marker never
occurs after the first start marker; the content of the lines between the
markers never causes the parse error. -/
theorem parseServerInstallOutput_failure_iff_markers_missing (str scriptId : String) :
    (parseServerInstallOutput str scriptId = none ↔
      (∀ i, ¬ occursAt str.toList ((scriptId ++ ": start").toList) i) ∨
      (∃ si, occursAt str.toList ((scriptId ++ ": start").toList) si ∧
        (∀ j, j < si → ¬ occursAt str.toList ((scriptId ++ ": start").toList) j) ∧
        ∀ d, ¬ occursAt (str.toList.drop (si + (scriptId ++ ": start").toList.length))
          ((scriptId ++ ": end").toList) d)) ∧
    (classifyInstallOutput str scriptId = .parseFailure ↔
      parseServerInstallOutput str scriptId = none) := by
  constructor
  · cases h1 : indexOfAux ((scriptId ++ ": start").toList) str.toList 0 with
    | none =>
      have hnone : parseServerInstallOutput str scriptId = none := by
        simp only [parseServerInstallOutput, h1]
      exact iff_of_true hnone (Or.inl ((indexOfAux_none _ _ _).mp h1))
    | some si =>
      obtain ⟨-, hs2, hs3⟩ := indexOfAux_some _ _ _ _ h1
      rw [Nat.sub_zero] at hs2
      have hs3' : ∀ j, j < si →
          ¬ occursAt str.toList ((scriptId ++ ": start").toList) j := by
        intro j hj
        exact hs3 j (by omega)
      cases h2 : indexOfAux ((scriptId ++ ": end").toList)
          (str.toList.drop (si + (scriptId ++ ": start").toList.length))
          (si + (scriptId ++ ": start").toList.length) with
      | none =>
        have hnone : parseServerInstallOutput str scriptId = none := by
          simp only [parseServerInstallOutput, h1, h2]
        exact iff_of_true hnone
          (Or.inr ⟨si, hs2, hs3', (indexOfAux_none _ _ _).mp h2⟩)
      | some ei =>
        have hsome : parseServerInstallOutput str scriptId =
            some (buildResultMap (splitLinesAux
              ((str.toList.take ei).drop
                (si + (scriptId ++ ": start").toList.length)) [])) := by
          simp only [parseServerInstallOutput, h1, h2]
        refine iff_of_false (by rw [hsome]; simp) ?_
        rintro (hL | ⟨si', ho', hmin', hend'⟩)
        · exact hL si hs2
        · have hsi : si' = si := by
            by_contra hne
            rcases Nat.lt_or_ge si' si with hlt | hge
            · exact hs3' si' hlt ho'
            · exact hmin' si (by omega) hs2
          subst hsi
          obtain ⟨-, he2, -⟩ := indexOfAux_some _ _ _ _ h2
          exact hend' _ he2
  · unfold classifyInstallOutput
    cases hp : parseServerInstallOutput str scriptId with
    | none => simp
    | some m =>
      refine iff_of_false ?_ (by simp)
      intro hcl
      revert hcl
      dsimp only
      split
      · split
        · simp
        · split <;> simp
      · simp

/-- Searching an appended list skips a prefix with no hit. -/
theorem find?_append_of_none {α : Type} (p : α → Bool) (l1 l2 : List α)
    (h : l1.find? p = none) : (l1 ++ l2).find? p = l2.find? p := by
  induction l1 with
  | nil => rfl
  | cons a rest ih =>
    cases hpa : p a with
    | true =>
      rw [List.find?_cons_of_pos _ hpa] at h
      exact Option.noConfusion h
    | false =>
      rw [List.find?_cons_of_neg _ (by simp [hpa])] at h
      rw [List.cons_append, List.find?_cons_of_neg _ (by simp [hpa])]
      exact ih h

/-- A name absent from the map is still absent after any registrations of
other names; registering it makes it found with its port. -/
theorem tunnelLookup_append_self (tunnels : List (String × Nat)) (name : String) (v : Nat)
    (h : tunnelLookup tunnels name = none) :
    tunnelLookup (tunnels ++ [(name, v)]) name = some v := by
  unfold tunnelLookup at h ⊢
  cases hf : tunnels.find? (fun p => p.1 == name) with
  | some q => rw [hf] at h; exact Option.noConfusion h
  | none =>
    rw [find?_append_of_none _ _ _ hf]
    simp [List.find?]

/-- A key not among the map's keys is not found. -/
theorem tunnelLookup_eq_none_of_not_mem (l : List (String × Nat)) (n : String)
    (h : n ∉ l.map Prod.fst) : tunnelLookup l n = none := by
  induction l with
  | nil => rfl
  | cons q rest ih =>
    simp only [List.map_cons, List.mem_cons, not_or] at h
    unfold tunnelLookup
    rw [List.find?_cons_of_neg _ (by simp [Ne.symm h.1])]
    have := ih h.2
    unfold tunnelLookup at this
    cases hf : rest.find? (fun p => p.1 == n) with
    | some q2 => rw [hf] at this; exact Option.noConfusion this
    | none => rfl

/-- After `Map.delete(n)` (modelled by `eraseP`) on a map with unique keys,
`n` is no longer found. -/
theorem tunnelLookup_eraseP_self (l : List (String × Nat)) (n : String)
    (hnodup : (l.map Prod.fst).Nodup) :
    tunnelLookup (l.eraseP (fun p => p.1 == n)) n = none := by
  induction l with
  | nil => rfl
  | cons q rest ih =>
    simp only [List.map_cons, List.nodup_cons] at hnodup
    by_cases hq : q.1 = n
    · rw [List.eraseP_cons_of_pos (by simp [hq])]
      exact tunnelLookup_eq_none_of_not_mem rest n (hq ▸ hnodup.1)
    · rw [List.eraseP_cons_of_neg (by simp [hq])]
      unfold tunnelLookup
      rw [List.find?_cons_of_neg _ (by simp [hq])]
      have := ih hnodup.2
      unfold tunnelLookup at this
      exact this

/-- Deleting one name does not change lookups of other names. -/
theorem tunnelLookup_eraseP_other (l : List (String × Nat)) (n m : String)
    (hm : m ≠ n) :
    tunnelLookup (l.eraseP (fun p => p.1 == n)) m = tunnelLookup l m := by
  induction l with
  | nil => rfl
  | cons q rest ih =>
    by_cases hq : q.1 = n
    · rw [List.eraseP_cons_of_pos (by simp [hq])]
      unfold tunnelLookup
      rw [List.find?_cons_of_neg _ (by simp [hq, Ne.symm hm])]
    · rw [List.eraseP_cons_of_neg (by simp [hq])]
      by_cases hqm : q.1 = m
      · unfold tunnelLookup
        rw [List.find?_cons_of_pos _ (by simp [hqm]), List.find?_cons_of_pos _ (by simp [hqm])]
      · unfold tunnelLookup
        rw [List.find?_cons_of_neg _ (by simp [hqm]), List.find?_cons_of_neg _ (by simp [hqm])]
        have := ih
        unfold tunnelLookup at this
        exact this

/-- C5: on a live session, a second `addTunnel` with the same (explicit or
defaulted) name returns the local port of the first call, changes nothing,
and performs no transport call at all — in particular no `forwardPort`. -/
theorem addTunnel_idempotent (st : ConnState) (config : SSHTunnelConfig)
    (sid co1 fo1 co2 fo2 p : Nat) (st1 : ConnState) (calls1 : List TransportCall)
    (hlive : st.sessionId = some sid)
    (h : addTunnel st config co1 fo1 = .ok (p, st1, calls1)) :
    addTunnel st1 config co2 fo2 = .ok (p, st1, []) := by
  have hcs1 : connectStep st co1 = (st, []) := by unfold connectStep; rw [hlive]
  simp only [addTunnel, hcs1] at h
  cases hl : tunnelLookup st.tunnels (tunnelName config) with
  | some q =>
    rw [hl] at h
    simp only [Except.ok.injEq, Prod.mk.injEq] at h
    obtain ⟨hp, hst, -⟩ := h
    subst hp
    subst hst
    have hcs2 : connectStep st co2 = (st, []) := by unfold connectStep; rw [hlive]
    simp only [addTunnel, hcs2, hl]
  | none =>
    rw [hl] at h
    cases hsocks : config.socks with
    | true =>
      rw [hsocks] at h
      simp at h
    | false =>
      rw [hsocks] at h
      simp only [Bool.false_eq_true, if_false, Except.ok.injEq, Prod.mk.injEq] at h
      obtain ⟨hp, hst, -⟩ := h
      subst hp
      have hsid1 : st1.sessionId = some sid := by rw [← hst, hlive]
      have hcs2 : connectStep st1 co2 = (st1, []) := by unfold connectStep; rw [hsid1]
      have hl1 : tunnelLookup st1.tunnels (tunnelName config) = some fo1 := by
        rw [← hst]
        exact tunnelLookup_append_self _ _ _ hl
      simp only [addTunnel, hcs2, hl1]

/-- Witness for C5: with tunnel `web -> 9000` already registered, a repeated
`addTunnel` for `web` returns 9000, leaves the state unchanged and makes no
transport call. -/
theorem addTunnel_idempotent_witness :
    addTunnel ⟨some 1, [("web", 9000)]⟩
        ⟨some "web", none, some "127.0.0.1", some 8080, none, false⟩ 2 9001 =
      .ok (9000, ⟨some 1, [("web", 9000)]⟩, []) :=
  addTunnel_idempotent ⟨some 1, []⟩
    ⟨some "web", none, some "127.0.0.1", some 8080, none, false⟩
    1 5 9000 2 9001 9000 ⟨some 1, [("web", 9000)]⟩
    [.forwardPortCall 0 "127.0.0.1" 8080] rfl rfl

/-- C7 (counterexample): a socks-mode `addTunnel` whose (explicit) name is
already registered does not fail — it returns the existing local port —
because the existing-name check precedes the socks check. -/
theorem addTunnel_socks_existing_name_counterexample :
    addTunnel ⟨some 1, [("t", 5000)]⟩ ⟨some "t", none, none, none, none, true⟩ 2 9000 =
      .ok (5000, ⟨some 1, [("t", 5000)]⟩, []) :=
  rfl

/-- C7 (amended): on a live session a socks-mode `addTunnel` fails with the
capability error whenever its resolved name is not yet registered; when the
name is registered it returns the existing port unchanged; and in every
non-throwing case no `forwardPort` transport call is made. -/
theorem addTunnel_socks_policy (st : ConnState) (config : SSHTunnelConfig)
    (sid co fo : Nat)
    (hlive : st.sessionId = some sid)
    (hsocks : config.socks = true) :
    (tunnelLookup st.tunnels (tunnelName config) = none →
      addTunnel st config co fo =
        .error "SOCKS tunnels not supported in native SSH connection") ∧
    (∀ p, tunnelLookup st.tunnels (tunnelName config) = some p →
      addTunnel st config co fo = .ok (p, st, [])) ∧
    (∀ r, addTunnel st config co fo = .ok r →
      ∀ call ∈ r.2.2, isForwardPortCall call = false) := by
  have hcs : connectStep st co = (st, []) := by unfold connectStep; rw [hlive]
  refine ⟨?_, ?_, ?_⟩
  · intro hnone
    simp only [addTunnel, hcs, hnone, hsocks, if_true]
  · intro p hp
    simp only [addTunnel, hcs, hp]
  · intro r hr call hcall
    cases hl : tunnelLookup st.tunnels (tunnelName config) with
    | some q =>
      simp only [addTunnel, hcs, hl, Except.ok.injEq] at hr
      rw [← hr] at hcall
      simp at hcall
    | none =>
      simp only [addTunnel, hcs, hl, hsocks, if_true] at hr
      exact Except.noConfusion hr

/-- Witness for the amended C7: on a live session with no tunnels, a socks
request for a fresh name throws the capability error. -/
theorem addTunnel_socks_policy_witness :
    addTunnel ⟨some 1, []⟩ ⟨some "s", none, none, none, none, true⟩ 3 9000 =
      .error "SOCKS tunnels not supported in native SSH connection" :=
  (addTunnel_socks_policy ⟨some 1, []⟩ ⟨some "s", none, none, none, none, true⟩
    1 3 9000 rfl rfl).1 (by decide)

/-- C10: `closeTunnel` only updates the tunnel map — deleting the named entry
or clearing the map — makes no transport call, and leaves the session id
untouched; a subsequent `addTunnel` for the closed name therefore finds no
entry and opens a fresh forward whose port comes from the transport. -/
theorem closeTunnel_frame_and_fresh_forward (st : ConnState) (n : String) (p : Nat)
    (sid co fo : Nat) (config : SSHTunnelConfig)
    (hlive : st.sessionId = some sid)
    (hn : n ≠ "")
    (hnodup : (st.tunnels.map Prod.fst).Nodup)
    (hp : tunnelLookup st.tunnels n = some p)
    (hname : tunnelName config = n)
    (hsocks : config.socks = false) :
    (closeTunnel st (some n)).2 = [] ∧
    (closeTunnel st none).2 = [] ∧
    (closeTunnel st (some n)).1.sessionId = st.sessionId ∧
    (closeTunnel st none).1.sessionId = st.sessionId ∧
    (closeTunnel st none).1.tunnels = [] ∧
    (∀ m, m ≠ n →
      tunnelLookup (closeTunnel st (some n)).1.tunnels m = tunnelLookup st.tunnels m) ∧
    tunnelLookup (closeTunnel st (some n)).1.tunnels n = none ∧
    addTunnel (closeTunnel st (some n)).1 config co fo =
      .ok (fo,
        { sessionId := st.sessionId,
          tunnels := (closeTunnel st (some n)).1.tunnels ++ [(n, fo)] },
        [.forwardPortCall (jsOrNat config.localPort 0)
          (jsOrString config.remoteAddr "127.0.0.1") (jsOrNat config.remotePort 0)]) := by
  have hclose : closeTunnel st (some n) =
      ({ st with tunnels := st.tunnels.eraseP (fun q => q.1 == n) }, []) := by
    simp only [closeTunnel, if_neg hn]
  refine ⟨by rw [hclose], rfl, by rw [hclose], rfl, rfl, ?_, ?_, ?_⟩
  · intro m hm
    rw [hclose]
    exact tunnelLookup_eraseP_other st.tunnels n m hm
  · rw [hclose]
    exact tunnelLookup_eraseP_self st.tunnels n hnodup
  · rw [hclose]
    have hcs : connectStep { st with tunnels := st.tunnels.eraseP (fun q => q.1 == n) } co =
        ({ st with tunnels := st.tunnels.eraseP (fun q => q.1 == n) }, []) := by
      unfold connectStep
      rw [show ConnState.sessionId
          { st with tunnels := st.tunnels.eraseP (fun q => q.1 == n) } = st.sessionId from rfl,
        hlive]
    have hlnone : tunnelLookup (st.tunnels.eraseP (fun q => q.1 == n)) n = none :=
      tunnelLookup_eraseP_self st.tunnels n hnodup
    simp only [addTunnel, hcs, hname, hlnone, hsocks, Bool.false_eq_true, if_false,
      List.nil_append]

/-- Witness for C10 at a concrete live session: closing tunnel `b` deletes
only its entry, keeps the session id, makes no transport call, and a new
`addTunnel` for `b` opens a fresh forward with the newly assigned port. -/
theorem closeTunnel_frame_and_fresh_forward_witness :
    (closeTunnel ⟨some 1, [("a", 1000), ("b", 2000)]⟩ (some "b")).2 = [] ∧
    (closeTunnel ⟨some 1, [("a", 1000), ("b", 2000)]⟩ none).2 = [] ∧
    (closeTunnel ⟨some 1, [("a", 1000), ("b", 2000)]⟩ (some "b")).1.sessionId =
      (⟨some 1, [("a", 1000), ("b", 2000)]⟩ : ConnState).sessionId ∧
    (closeTunnel ⟨some 1, [("a", 1000), ("b", 2000)]⟩ none).1.sessionId =
      (⟨some 1, [("a", 1000), ("b", 2000)]⟩ : ConnState).sessionId ∧
    (closeTunnel ⟨some 1, [("a", 1000), ("b", 2000)]⟩ none).1.tunnels = [] ∧
    (∀ m, m ≠ "b" →
      tunnelLookup (closeTunnel ⟨some 1, [("a", 1000), ("b", 2000)]⟩ (some "b")).1.tunnels m =
        tunnelLookup [("a", 1000), ("b", 2000)] m) ∧
    tunnelLookup (closeTunnel ⟨some 1, [("a", 1000), ("b", 2000)]⟩ (some "b")).1.tunnels "b" =
      none ∧
    addTunnel (closeTunnel ⟨some 1, [("a", 1000), ("b", 2000)]⟩ (some "b")).1
        ⟨some "b", none, some "10.0.0.5", some 22, none, false⟩ 9 7777 =
      .ok (7777,
        { sessionId := (⟨some 1, [("a", 1000), ("b", 2000)]⟩ : ConnState).sessionId,
          tunnels :=
            (closeTunnel ⟨some 1, [("a", 1000), ("b", 2000)]⟩ (some "b")).1.tunnels ++
              [("b", 7777)] },
        [.forwardPortCall 0 "10.0.0.5" 22]) :=
  closeTunnel_frame_and_fresh_forward ⟨some 1, [("a", 1000), ("b", 2000)]⟩ "b" 2000 1 9 7777
    ⟨some "b", none, some "10.0.0.5", some 22, none, false⟩
    rfl (by decide) (by decide) (by decide) (by decide) rfl

/-- C9: `exec` always returns an empty `stderr` — the transport output goes
entirely to `stdout` — so the `result.stderr` fallback in
`downloadServerOnRemote` always produces `Download failed: Unknown error`
when the completion marker is missing. -/
theorem exec_stderr_always_empty (st : ConnState) (cmd : String) (co : Nat) (out : String) :
    (connExec st cmd co out).2.2.2 = "" ∧
    (∀ msg,
      downloadCompletionCheck (connExec st cmd co out).2.2.1 (connExec st cmd co out).2.2.2 =
          .error msg →
        msg = "Download failed: Unknown error") := by
  refine ⟨rfl, ?_⟩
  intro msg h
  unfold downloadCompletionCheck at h
  by_cases hin : jsIncludes (connExec st cmd co out).2.2.1 "DOWNLOAD_COMPLETE" = true
  · rw [if_pos hin] at h
    exact Except.noConfusion h
  · rw [if_neg hin] at h
    simp only [Except.error.injEq] at h
    rw [← h]
    rfl

/-- Witness for C9: a download-script run whose output lacks the completion
marker reports `Download failed: Unknown error`, never a transport stderr. -/
theorem exec_stderr_always_empty_witness :
    (connExec ⟨some 7, []⟩ "bash -c download" 3 "curl: (6) not resolved").2.2.2 = "" ∧
    (∀ msg,
      downloadCompletionCheck
          (connExec ⟨some 7, []⟩ "bash -c download" 3 "curl: (6) not resolved").2.2.1
          (connExec ⟨some 7, []⟩ "bash -c download" 3 "curl: (6) not resolved").2.2.2 =
        .error msg →
      msg = "Download failed: Unknown error") :=
  exec_stderr_always_empty ⟨some 7, []⟩ "bash -c download" 3 "curl: (6) not resolved"

/-- C2 (counterexample): two `connect()` calls racing on a disconnected
connection — each running its null-check segment before the other's handshake
resolves, exactly the interleaving `Promise.all` produces — perform TWO
`NativeSSH.connect` handshakes, not one, and the callers observe different
session ids. -/
theorem connect_race_counterexample :
    (connectRaceRun 1 2 [false, true, false, true]).handshakes = 2 ∧
    (connectRaceRun 1 2 [false, true, false, true]).caller1 = .returned 1 ∧
    (connectRaceRun 1 2 [false, true, false, true]).caller2 = .returned 2 ∧
    (connectRaceRun 1 2 [false, true, false, true]).sessionId = some 2 := by
  decide

/-- C2 (amended): `connect` does not serialize concurrent callers.  If the
second call's first segment runs before the first call's handshake resolves,
two handshakes are performed, the callers observe their own handshake's ids
and the connection keeps the last writer's id; only when the second call
starts after the first has completed is a single handshake performed, both
callers then observing the same id. -/
theorem connect_race_semantics (h1 h2 : Nat) :
    ((connectRaceRun h1 h2 [false, true, false, true]).handshakes = 2 ∧
      (connectRaceRun h1 h2 [false, true, false, true]).sessionId = some h2 ∧
      (connectRaceRun h1 h2 [false, true, false, true]).caller1 = .returned h1 ∧
      (connectRaceRun h1 h2 [false, true, false, true]).caller2 = .returned h2) ∧
    ((connectRaceRun h1 h2 [false, false, true, true]).handshakes = 1 ∧
      (connectRaceRun h1 h2 [false, false, true, true]).sessionId = some h1 ∧
      (connectRaceRun h1 h2 [false, false, true, true]).caller1 = .returned h1 ∧
      (connectRaceRun h1 h2 [false, false, true, true]).caller2 = .returned h1) :=
  ⟨⟨rfl, rfl, rfl, rfl⟩, ⟨rfl, rfl, rfl, rfl⟩⟩

/-- A successful match fixes the (type, fingerprint) pair and excludes
certificates. -/
theorem keyMatches_pairKey {a k : SSHKey} (h : keyMatches a k = true) :
    pairKey k = pairKey a ∧ k.isCertificate = false := by
  unfold keyMatches at h
  simp only [Bool.and_eq_true, Bool.not_eq_eq_eq_not, Bool.not_true, beq_iff_eq] at h
  obtain ⟨⟨hc, ht⟩, hf⟩ := h
  refine ⟨?_, by simpa using hc⟩
  unfold pairKey
  rw [ht, hf]

/-- A `none` result of `findMatch` means no file key matches. -/
theorem findMatch_none (a : SSHKey) :
    ∀ (l : List SSHKey), findMatch a l = none →
      l.any (fun k => keyMatches a k) = false := by
  intro l
  induction l with
  | nil => intro _; rfl
  | cons k rest ih =>
    intro h
    unfold findMatch at h
    by_cases hk : keyMatches a k = true
    · rw [if_pos hk] at h
      exact Option.noConfusion h
    · rw [if_neg hk] at h
      cases hfm : findMatch a rest with
      | some pr =>
        obtain ⟨f, rest2⟩ := pr
        rw [hfm] at h
        exact Option.noConfusion h
      | none =>
        simp only [List.any_cons, Bool.or_eq_false_iff]
        exact ⟨by simpa using hk, ih hfm⟩

/-- A successful `findMatch` returns a matching member and removes exactly one
element. -/
theorem findMatch_some (a : SSHKey) :
    ∀ (l : List SSHKey) (f : SSHKey) (l2 : List SSHKey), findMatch a l = some (f, l2) →
      keyMatches a f = true ∧ f ∈ l ∧ l2.length + 1 = l.length := by
  intro l
  induction l with
  | nil => intro f l2 h; exact Option.noConfusion h
  | cons k rest ih =>
    intro f l2 h
    unfold findMatch at h
    by_cases hk : keyMatches a k = true
    · rw [if_pos hk] at h
      simp only [Option.some.injEq, Prod.mk.injEq] at h
      obtain ⟨h1, h2⟩ := h
      subst h1
      subst h2
      exact ⟨hk, List.mem_cons_self _ _, rfl⟩
    · rw [if_neg hk] at h
      cases hfm : findMatch a rest with
      | none =>
        rw [hfm] at h
        exact Option.noConfusion h
      | some pr =>
        obtain ⟨f2, rest2⟩ := pr
        rw [hfm] at h
        simp only [Option.some.injEq, Prod.mk.injEq] at h
        obtain ⟨h1, h2⟩ := h
        obtain ⟨hm, hmem, hlen⟩ := ih f2 rest2 hfm
        rw [h1] at hm hmem
        refine ⟨hm, List.mem_cons_of_mem _ hmem, ?_⟩
        rw [← h2]
        simp only [List.length_cons]
        omega

/-- Under unique (type, fingerprint) pairs, the pool `findMatch` leaves is the
pool without every key matching the agent key (there is exactly one). -/
theorem findMatch_eq_filter (a : SSHKey) :
    ∀ (l : List SSHKey), (l.map pairKey).Nodup →
      ∀ (f : SSHKey) (l2 : List SSHKey), findMatch a l = some (f, l2) →
        l2 = l.filter (fun k => !(keyMatches a k)) := by
  intro l
  induction l with
  | nil => intro _ f l2 h; exact Option.noConfusion h
  | cons k rest ih =>
    intro hnd f l2 h
    simp only [List.map_cons, List.nodup_cons] at hnd
    unfold findMatch at h
    by_cases hk : keyMatches a k = true
    · rw [if_pos hk] at h
      simp only [Option.some.injEq, Prod.mk.injEq] at h
      obtain ⟨-, h2⟩ := h
      subst h2
      rw [List.filter_cons_of_neg (by simp [hk])]
      symm
      rw [List.filter_eq_self]
      intro x hx
      simp only [Bool.not_eq_eq_eq_not, Bool.not_true]
      by_contra hcon
      have hxm : keyMatches a x = true := by
        cases hxx : keyMatches a x
        · exact absurd hxx hcon
        · rfl
      have hpx := (keyMatches_pairKey hxm).1
      have hpk := (keyMatches_pairKey hk).1
      exact hnd.1 (List.mem_map.mpr ⟨x, hx, by rw [hpx, hpk]⟩)
    · rw [if_neg hk] at h
      cases hfm : findMatch a rest with
      | none =>
        rw [hfm] at h
        exact Option.noConfusion h
      | some pr =>
        obtain ⟨f2, rest2⟩ := pr
        rw [hfm] at h
        simp only [Option.some.injEq, Prod.mk.injEq] at h
        obtain ⟨-, h2⟩ := h
        subst h2
        rw [List.filter_cons_of_pos (by simpa using hk)]
        rw [ih hnd.2 f2 rest2 hfm]

/-- Removing the keys that match `a` does not change whether some key matches
`b`, as long as `b` targets a different (type, fingerprint) pair. -/
theorem any_filter_not_matches (a b : SSHKey) (hab : pairKey b ≠ pairKey a) :
    ∀ (l : List SSHKey),
      (l.filter (fun k => !(keyMatches a k))).any (fun k => keyMatches b k) =
        l.any (fun k => keyMatches b k) := by
  intro l
  induction l with
  | nil => rfl
  | cons k ks ih =>
    by_cases hbk : keyMatches b k = true
    · have hak : keyMatches a k = false := by
        cases hak : keyMatches a k
        · rfl
        · exact absurd (((keyMatches_pairKey hbk).1.symm.trans
            (keyMatches_pairKey hak).1)) hab
      rw [List.filter_cons_of_pos (by simp [hak])]
      simp [List.any_cons, hbk]
    · have hbk' : keyMatches b k = false := by
        cases hx : keyMatches b k
        · rfl
        · exact absurd hx hbk
      by_cases hak : keyMatches a k = true
      · rw [List.filter_cons_of_neg (by simp [hak])]
        rw [ih]
        simp [List.any_cons, hbk']
      · rw [List.filter_cons_of_pos (by simp [Bool.not_eq_true] at hak; simp [hak])]
        simp [List.any_cons, hbk', ih]

/-- Splitting a list by a boolean predicate preserves the total length. -/
theorem length_filter_add_length_filter_not {α : Type} (p : α → Bool) (l : List α) :
    (l.filter p).length + (l.filter (fun x => !(p x))).length = l.length := by
  induction l with
  | nil => rfl
  | cons x xs ih =>
    cases hx : p x
    · rw [List.filter_cons_of_neg (by simp [hx]), List.filter_cons_of_pos (by simp [hx])]
      simp only [List.length_cons]
      omega
    · rw [List.filter_cons_of_pos (by simp [hx]), List.filter_cons_of_neg (by simp [hx])]
      simp only [List.length_cons]
      omega

/-- Full characterisation of the merge loop under unique (type, fingerprint)
pairs on both sides: the remaining file pool and kept agent keys are filters
of the inputs, the preferred list has one entry per matched agent key, each a
file key re-flagged agent-backed, and preferred plus remaining file keys
account for the whole file pool. -/
theorem mergeLoop_spec (identitiesOnly : Bool) :
    ∀ (agents files : List SSHKey),
      (agents.map pairKey).Nodup → (files.map pairKey).Nodup →
      (mergeLoop identitiesOnly agents files).2.2 =
          files.filter (fun f => !(agents.any (fun a => keyMatches a f))) ∧
      (mergeLoop identitiesOnly agents files).2.1 =
          (if identitiesOnly then []
           else agents.filter (fun a => !(files.any (fun k => keyMatches a k)))) ∧
      (mergeLoop identitiesOnly agents files).1.length =
          (agents.filter (fun a => files.any (fun k => keyMatches a k))).length ∧
      (∀ k ∈ (mergeLoop identitiesOnly agents files).1,
        ∃ f ∈ files, f.isCertificate = false ∧ k = { f with agentSupport := true }) ∧
      (mergeLoop identitiesOnly agents files).1.length +
          (mergeLoop identitiesOnly agents files).2.2.length = files.length := by
  intro agents
  induction agents with
  | nil =>
    intro files hA hF
    refine ⟨?_, ?_, ?_, ?_, ?_⟩ <;> simp [mergeLoop]
  | cons a rest ihall =>
    intro files hA hF
    simp only [List.map_cons, List.nodup_cons] at hA
    have hrestpair : ∀ b ∈ rest, pairKey b ≠ pairKey a := by
      intro b hb hcon
      exact hA.1 (List.mem_map.mpr ⟨b, hb, hcon⟩)
    cases hfm : findMatch a files with
    | none =>
      have hnomatch := findMatch_none a files hfm
      have hnoelem : ∀ f ∈ files, keyMatches a f = false := by
        intro f hf
        cases hx : keyMatches a f
        · rfl
        · exact absurd (List.any_eq_true.mpr ⟨f, hf, hx⟩) (by simp [hnomatch])
      obtain ⟨ih1, ih2, ih3, ih4, ih5⟩ := ihall files hA.2 hF
      refine ⟨?_, ?_, ?_, ?_, ?_⟩
      · show (mergeLoop identitiesOnly (a :: rest) files).2.2 = _
        unfold mergeLoop
        rw [hfm]
        simp only
        rw [ih1]
        apply List.filter_congr
        intro f hf
        simp [List.any_cons, hnoelem f hf]
      · unfold mergeLoop
        rw [hfm]
        simp only
        rw [ih2]
        rw [List.filter_cons_of_pos (by simp [hnomatch])]
        cases identitiesOnly <;> simp
      · unfold mergeLoop
        rw [hfm]
        simp only
        rw [ih3, List.filter_cons_of_neg (by simp [hnomatch])]
      · unfold mergeLoop
        rw [hfm]
        simp only
        exact ih4
      · unfold mergeLoop
        rw [hfm]
        simp only
        exact ih5
    | some pr =>
      obtain ⟨f, remaining⟩ := pr
      obtain ⟨hmf, hmem, hlen⟩ := findMatch_some a files f remaining hfm
      have hrem := findMatch_eq_filter a files hF f remaining hfm
      have hany : files.any (fun k => keyMatches a k) = true :=
        List.any_eq_true.mpr ⟨f, hmem, hmf⟩
      have hFrem : (remaining.map pairKey).Nodup := by
        rw [hrem]
        exact ((List.filter_sublist files).map pairKey).nodup hF
      have htransfer : ∀ b ∈ rest,
          remaining.any (fun k => keyMatches b k) = files.any (fun k => keyMatches b k) := by
        intro b hb
        rw [hrem]
        exact any_filter_not_matches a b (hrestpair b hb) files
      obtain ⟨ih1, ih2, ih3, ih4, ih5⟩ := ihall remaining hA.2 hFrem
      refine ⟨?_, ?_, ?_, ?_, ?_⟩
      · unfold mergeLoop
        rw [hfm]
        simp only
        rw [ih1, hrem, List.filter_filter]
        apply List.filter_congr
        intro x hx
        simp only [List.any_cons, Bool.not_or, Bool.and_comm]
      · unfold mergeLoop
        rw [hfm]
        simp only
        rw [ih2, List.filter_cons_of_neg (by simp [hany])]
        cases identitiesOnly
        · simp only [if_false, Bool.false_eq_true]
          apply List.filter_congr
          intro b hb
          rw [htransfer b hb]
        · simp
      · unfold mergeLoop
        rw [hfm]
        simp only [List.length_cons]
        rw [ih3, List.filter_cons_of_pos (by simp [hany])]
        simp only [List.length_cons]
        congr 1
        apply congrArg
        apply List.filter_congr
        intro b hb
        rw [htransfer b hb]
      · unfold mergeLoop
        rw [hfm]
        simp only
        intro k hk
        rcases List.mem_cons.mp hk with hk1 | hk2
        · exact ⟨f, hmem, (keyMatches_pairKey hmf).2, hk1⟩
        · obtain ⟨f2, hf2, hc2, hk2⟩ := ih4 k hk2
          refine ⟨f2, ?_, hc2, hk2⟩
          rw [hrem] at hf2
          exact List.mem_of_mem_filter hf2
      · unfold mergeLoop
        rw [hfm]
        simp only [List.length_cons]
        omega

/-- C4: from `N` parseable file identities and `M` agent identities with `K`
overlapping (type, fingerprint) pairs — pairs unique within each source, no
certificates, as `gatherIdentityFiles` builds them — the merged result
consists of the `K` merged entries (file metadata, re-flagged agent-backed),
then the unmatched agent identities (present only when identities-only is
false), then the remaining file identities; with identities-only false it has
exactly `N + M - K` entries, and certificates are excluded. -/
theorem gatherIdentityFiles_merge_spec
    (fileKeys agentKeys : List SSHKey) (identitiesOnly : Bool)
    (hA : (agentKeys.map pairKey).Nodup) (hF : (fileKeys.map pairKey).Nodup)
    (hFc : ∀ f ∈ fileKeys, f.isCertificate = false)
    (hAc : ∀ a ∈ agentKeys, a.isCertificate = false) :
    gatherMerge fileKeys agentKeys identitiesOnly =
        (mergeLoop identitiesOnly agentKeys fileKeys).1 ++
          (mergeLoop identitiesOnly agentKeys fileKeys).2.1 ++
          (mergeLoop identitiesOnly agentKeys fileKeys).2.2 ∧
    (gatherMerge fileKeys agentKeys false).length =
        fileKeys.length + agentKeys.length -
          (agentKeys.filter (fun a => fileKeys.any (fun k => keyMatches a k))).length ∧
    (mergeLoop identitiesOnly agentKeys fileKeys).1.length =
        (agentKeys.filter (fun a => fileKeys.any (fun k => keyMatches a k))).length ∧
    (∀ k ∈ (mergeLoop identitiesOnly agentKeys fileKeys).1,
      k.agentSupport = true ∧ ∃ f ∈ fileKeys, k = { f with agentSupport := true }) ∧
    (mergeLoop identitiesOnly agentKeys fileKeys).2.1 =
        (if identitiesOnly then []
         else agentKeys.filter (fun a => !(fileKeys.any (fun k => keyMatches a k)))) ∧
    (mergeLoop identitiesOnly agentKeys fileKeys).2.2 =
        fileKeys.filter (fun f => !(agentKeys.any (fun a => keyMatches a f))) := by
  obtain ⟨hs1, hs2, hs3, hs4, hs5⟩ := mergeLoop_spec identitiesOnly agentKeys fileKeys hA hF
  obtain ⟨hf1, hf2, hf3, hf4, hf5⟩ := mergeLoop_spec false agentKeys fileKeys hA hF
  have hnocert : ∀ (io : Bool) k,
      k ∈ (mergeLoop io agentKeys fileKeys).1 ++
          (mergeLoop io agentKeys fileKeys).2.1 ++
          (mergeLoop io agentKeys fileKeys).2.2 →
        k.isCertificate = false := by
    intro io k hk
    obtain ⟨g1, g2, g3, g4, g5⟩ := mergeLoop_spec io agentKeys fileKeys hA hF
    rcases List.mem_append.mp hk with hk12 | hk3
    · rcases List.mem_append.mp hk12 with hk1 | hk2
      · obtain ⟨f2, hf2m, hc2, hkk⟩ := g4 k hk1
        rw [hkk]
        exact hc2
      · rw [g2] at hk2
        by_cases hio : io = true
        · rw [if_pos hio] at hk2
          simp at hk2
        · rw [if_neg hio] at hk2
          exact hAc k (List.mem_of_mem_filter hk2)
    · rw [g1] at hk3
      exact hFc k (List.mem_of_mem_filter hk3)
  have hassembly : ∀ io : Bool,
      gatherMerge fileKeys agentKeys io =
        (mergeLoop io agentKeys fileKeys).1 ++
          (mergeLoop io agentKeys fileKeys).2.1 ++
          (mergeLoop io agentKeys fileKeys).2.2 := by
    intro io
    unfold gatherMerge
    rw [List.filter_eq_self]
    intro k hk
    simp [hnocert io k hk]
  refine ⟨hassembly identitiesOnly, ?_, hs3, ?_, hs2, hs1⟩
  · rw [hassembly false]
    simp only [List.length_append]
    have hKM := length_filter_add_length_filter_not
      (fun a => fileKeys.any (fun k => keyMatches a k)) agentKeys
    have hag : (mergeLoop false agentKeys fileKeys).2.1.length =
        (agentKeys.filter (fun a => !(fileKeys.any (fun k => keyMatches a k)))).length := by
      rw [hf2]
      simp
    have hKle : (agentKeys.filter
        (fun a => fileKeys.any (fun k => keyMatches a k))).length ≤ agentKeys.length :=
      List.length_filter_le _ _
    omega
  · intro k hk
    obtain ⟨f2, hf2m, hc2, hkk⟩ := hs4 k hk
    exact ⟨by rw [hkk], f2, hf2m, hkk⟩

/-- Witness for C4: two file identities and two agent identities with one
overlapping pair merge into three entries — the merged agent-backed key
first, then the unmatched agent key, then the unmatched file key. -/
theorem gatherIdentityFiles_merge_spec_witness :
    gatherMerge
        [mkFileKey "/h/.ssh/id_rsa" "ssh-rsa" "fpA",
          mkFileKey "/h/.ssh/id_ed25519" "ssh-ed25519" "fpB"]
        [mkAgentKey "agentB" "ssh-ed25519" "fpB", mkAgentKey "agentC" "ssh-ed25519" "fpC"]
        false =
      (mergeLoop false
          [mkAgentKey "agentB" "ssh-ed25519" "fpB", mkAgentKey "agentC" "ssh-ed25519" "fpC"]
          [mkFileKey "/h/.ssh/id_rsa" "ssh-rsa" "fpA",
            mkFileKey "/h/.ssh/id_ed25519" "ssh-ed25519" "fpB"]).1 ++
        (mergeLoop false
          [mkAgentKey "agentB" "ssh-ed25519" "fpB", mkAgentKey "agentC" "ssh-ed25519" "fpC"]
          [mkFileKey "/h/.ssh/id_rsa" "ssh-rsa" "fpA",
            mkFileKey "/h/.ssh/id_ed25519" "ssh-ed25519" "fpB"]).2.1 ++
        (mergeLoop false
          [mkAgentKey "agentB" "ssh-ed25519" "fpB", mkAgentKey "agentC" "ssh-ed25519" "fpC"]
          [mkFileKey "/h/.ssh/id_rsa" "ssh-rsa" "fpA",
            mkFileKey "/h/.ssh/id_ed25519" "ssh-ed25519" "fpB"]).2.2 ∧
    (gatherMerge
        [mkFileKey "/h/.ssh/id_rsa" "ssh-rsa" "fpA",
          mkFileKey "/h/.ssh/id_ed25519" "ssh-ed25519" "fpB"]
        [mkAgentKey "agentB" "ssh-ed25519" "fpB", mkAgentKey "agentC" "ssh-ed25519" "fpC"]
        false).length =
      2 + 2 - 1 := by
  have h := gatherIdentityFiles_merge_spec
    [mkFileKey "/h/.ssh/id_rsa" "ssh-rsa" "fpA",
      mkFileKey "/h/.ssh/id_ed25519" "ssh-ed25519" "fpB"]
    [mkAgentKey "agentB" "ssh-ed25519" "fpB", mkAgentKey "agentC" "ssh-ed25519" "fpC"]
    false (by decide) (by decide) (by decide) (by decide)
  refine ⟨h.1, ?_⟩
  have h2 := h.2.1
  simpa using h2

/-- Witness for the amended C6: a stream with no markers at all satisfies the
missing-marker condition the theorem extracts from a failed parse. -/
theorem parseServerInstallOutput_failure_iff_markers_missing_witness :
    (∀ i, ¬ occursAt ("no markers here".toList) (("abc" ++ ": start").toList) i) ∨
    (∃ si, occursAt ("no markers here".toList) (("abc" ++ ": start").toList) si ∧
      (∀ j, j < si → ¬ occursAt ("no markers here".toList) (("abc" ++ ": start").toList) j) ∧
      ∀ d, ¬ occursAt ("no markers here".toList.drop (si + ("abc" ++ ": start").toList.length))
        (("abc" ++ ": end").toList) d) :=
  (parseServerInstallOutput_failure_iff_markers_missing "no markers here" "abc").1.mp
    (by decide)

end Uplink

namespace Uplink

/-- C8: `detectRemoteSystem` maps `uname -m` output `x86_64`/`amd64` to x64 and
`aarch64`/`arm64` to arm64, and fails with the specific unsupported-architecture
error on every other (trimmed) output, never defaulting to x64 or arm64. -/
theorem detectRemoteSystem_arch_mapping (s : String) :
    (detectRemoteSystem s = .ok ⟨.x64, "glibc", none⟩ ↔
      jsTrim s = "x86_64" ∨ jsTrim s = "amd64") ∧
    (detectRemoteSystem s = .ok ⟨.arm64, "glibc", none⟩ ↔
      jsTrim s = "aarch64" ∨ jsTrim s = "arm64") ∧
    (jsTrim s ≠ "x86_64" → jsTrim s ≠ "amd64" → jsTrim s ≠ "aarch64" → jsTrim s ≠ "arm64" →
      detectRemoteSystem s = .error ("Unsupported architecture: " ++ jsTrim s)) := by
  unfold detectRemoteSystem
  by_cases h1 : jsTrim s = "x86_64" <;>
    by_cases h2 : jsTrim s = "amd64" <;>
      by_cases h3 : jsTrim s = "aarch64" <;>
        by_cases h4 : jsTrim s = "arm64" <;>
          simp_all

/-- Witness for C8: `sparc64` is rejected with the specific error, while
`x86_64` and `aarch64` map to x64 and arm64. -/
theorem detectRemoteSystem_arch_mapping_witness :
    detectRemoteSystem "sparc64" = .error "Unsupported architecture: sparc64" ∧
    detectRemoteSystem "x86_64" = .ok ⟨.x64, "glibc", none⟩ ∧
    detectRemoteSystem "aarch64" = .ok ⟨.arm64, "glibc", none⟩ :=
  ⟨(detectRemoteSystem_arch_mapping "sparc64").2.2 (by decide) (by decide) (by decide)
      (by decide),
    (detectRemoteSystem_arch_mapping "x86_64").1.mpr (Or.inl (by decide)),
    (detectRemoteSystem_arch_mapping "aarch64").2.1.mpr (Or.inl (by decide))⟩

/-- C3: archive size verification performs no re-upload when the first remote
byte count matches the local size; retries exactly once on a first mismatch and
succeeds when the retried size matches; and after a second mismatch fails with
an integrity error reporting both sizes, with no further retry. -/
theorem verifyRemoteArchiveSize_retry_policy (L : Nat) (first retry : Option Nat) :
    (first = some L → verifyRemoteArchiveSize L first retry = .verified 0) ∧
    (first ≠ some L → retry = some L → verifyRemoteArchiveSize L first retry = .verified 1) ∧
    (first ≠ some L → retry ≠ some L →
      verifyRemoteArchiveSize L first retry =
        .installError
          ("Sidecar archive upload incomplete (local " ++ toString L ++
            " bytes, remote " ++ remoteSizeText retry ++ ").") 1) := by
  unfold verifyRemoteArchiveSize
  refine ⟨fun h => ?_, fun h1 h2 => ?_, fun h1 h2 => ?_⟩
  · simp [h]
  · simp [h1, h2]
  · simp [h1, h2]

/-- Witness for C3, at the sizes from the spec's example: remote 1000 at once
(no retry), remote 900 then 1000 (one retry, success), remote 900 twice
(integrity error naming both sizes). -/
theorem verifyRemoteArchiveSize_retry_policy_witness :
    verifyRemoteArchiveSize 1000 (some 1000) (some 900) = .verified 0 ∧
    verifyRemoteArchiveSize 1000 (some 900) (some 1000) = .verified 1 ∧
    verifyRemoteArchiveSize 1000 (some 900) (some 900) =
      .installError "Sidecar archive upload incomplete (local 1000 bytes, remote 900)." 1 := by
  refine ⟨(verifyRemoteArchiveSize_retry_policy 1000 (some 1000) (some 900)).1 rfl,
    (verifyRemoteArchiveSize_retry_policy 1000 (some 900) (some 1000)).2.1 (by decide) rfl,
    ?_⟩
  have h := (verifyRemoteArchiveSize_retry_policy 1000 (some 900) (some 900)).2.2
    (by decide) (by decide)
  simpa using h

end Uplink
